import Mathlib

/-!
Verification of `pack_code_to_xml.py` (fast-templater).

Shallow embedding conventions:
* A filesystem path is its sequence of components, as produced by Python's
  `pathlib.Path.parts` (an absolute path starts with the component "/").
* The filesystem seen by the collector is a list of entries (path plus an
  `isFile` flag), standing for everything `Path.rglob` can enumerate.
* Reading a file is a function `List String → Option String`; `none` models
  the exception branch of the `try` block in `create_xml_structure`
  (decode error, permission problem, disappeared file).
* Python's `str.lower` is modelled on its ASCII fragment (`Char.toLower`);
  every fixed rule-set constant in the program is ASCII.
* Machine details of `xml.etree.ElementTree.tostring`, `minidom.parseString`
  and `minidom.toprettyxml` are embedded where the claims depend on them:
  text-node escaping, attribute escaping, XML line-ending normalization and
  the two-space pretty-printer layout for the fixed tree shape the program
  builds.
-/

namespace PackCode

/-- Lowercase a string, modelling Python `str.lower` on ASCII data
(the program's rule sets are all ASCII). -/
def asciiLower (s : String) : String :=
  String.mk (s.data.map Char.toLower)

/-- `endsWithB s t` models Python `s.endswith(t)`. -/
def endsWithB (s t : String) : Bool :=
  t.data.isSuffixOf s.data

/-- `startsWithB s t` models Python `s.startswith(t)`. -/
def startsWithB (s t : String) : Bool :=
  t.data.isPrefixOf s.data

/-- Occurrence of `pat` inside `s`, modelling Python `pat in s`. -/
def hasSubChars (pat : List Char) : List Char → Bool
  | [] => pat.isEmpty
  | c :: rest => pat.isPrefixOf (c :: rest) || hasSubChars pat rest

/-- `hasSub s pat` models Python `pat in s` (substring test). -/
def hasSub (s pat : String) : Bool :=
  hasSubChars pat.data s.data

/-- Code-point comparison of character sequences, modelling Python `str.__lt__`. -/
def charsLtB : List Char → List Char → Bool
  | _, [] => false
  | [], _ :: _ => true
  | a :: as, b :: bs =>
    if a < b then true
    else if b < a then false
    else charsLtB as bs

/-- `strLtB a b` models Python `a < b` on strings (code-point lexicographic). -/
def strLtB (a b : String) : Bool :=
  charsLtB a.data b.data

/-- Non-strict comparison of paths by their component sequences: this is the
order `sorted` uses on `pathlib.Path` values (`PurePath` compares the tuple
of parts, each part as a string). -/
def pathLeB : List String → List String → Bool
  | [], _ => true
  | _ :: _, [] => false
  | a :: as, b :: bs =>
    if strLtB a b then true
    else if strLtB b a then false
    else pathLeB as bs

/-- Ordered insertion for `sortPaths`. -/
def insertPath (x : List String) : List (List String) → List (List String)
  | [] => [x]
  | y :: ys => if pathLeB x y then x :: y :: ys else y :: insertPath x ys

/-- Sorting a list of paths in the order of Python `sorted` on `Path`
objects (ascending by component sequence; the order is total and
antisymmetric, so the result coincides with Python's stable sort). -/
def sortPaths : List (List String) → List (List String)
  | [] => []
  | x :: xs => insertPath x (sortPaths xs)

/-- Split a character sequence at every slash. -/
def splitSlash : List Char → List (List Char)
  | [] => [[]]
  | '/' :: rest => [] :: splitSlash rest
  | c :: rest =>
    match splitSlash rest with
    | [] => [[c]]
    | g :: gs => (c :: g) :: gs

/-- Parse a path string into its `Path.parts`, modelling `pathlib`
normalization on POSIX: empty and "." components are dropped, a leading
slash becomes the root component "/". -/
def parsePath (s : String) : List String :=
  let comps := ((splitSlash s.data).map String.mk).filter
    (fun c => !(c = "") && !(c = "."))
  if s.startsWith "/" then "/" :: comps else comps

/-- `os.path.basename`: everything after the last slash of the raw string. -/
def basename (s : String) : String :=
  (((splitSlash s.data).map String.mk).getLast?).getD ""

/-- `str(path)` for a path given by its parts (POSIX form; the empty part
list renders as "."). -/
def strOfPath : List String → String
  | [] => "."
  | "/" :: rest => "/" ++ String.intercalate "/" rest
  | p => String.intercalate "/" p

/-- `Path.name`: the final component (empty for the filesystem root). -/
def pathName (p : List String) : String :=
  match p.getLast? with
  | none => ""
  | some s => if s = "/" then "" else s

/-- Index of the last dot in a character sequence. -/
def lastDotIdx : List Char → Option Nat
  | [] => none
  | c :: cs =>
    match lastDotIdx cs with
    | some i => some (i + 1)
    | none => if c = '.' then some 0 else none

/-- `Path.suffix`: the part of the name from its last dot, provided that dot
is neither the first nor the last character of the name. -/
def pathSuffix (p : List String) : String :=
  let cs := (pathName p).data
  match lastDotIdx cs with
  | some i => if 0 < i && i + 1 < cs.length then String.mk (cs.drop i) else ""
  | none => ""

/-- Suffixes marking test and mock files (`TEST_FILE_SUFFIXES`, lines 15-28). -/
def TEST_FILE_SUFFIXES : List String :=
  [".test.ts", ".spec.ts", ".test.tsx", ".spec.tsx",
   ".test.js", ".spec.js", ".test.jsx", ".spec.jsx",
   ".mock.ts", ".mock.tsx", ".mock.js", ".mock.jsx"]

/-- Directory names marking test locations (`TEST_DIR_NAMES`, line 30). -/
def TEST_DIR_NAMES : List String :=
  ["__tests__", "tests", "__mocks__"]

/-- Exact filenames of known config files (`CONFIG_FILE_NAMES`, lines 32-45). -/
def CONFIG_FILE_NAMES : List String :=
  ["package.json", "package-lock.json", "tsconfig.json", "tsconfig.base.json",
   "tsconfig.build.json", "jest.config.js", "jest.config.ts",
   "eslint.config.js", "eslint.config.ts", "esbuild.config.mjs",
   "codebase.xml", "versions.json"]

/-- Filename suffixes of config files (`CONFIG_SUFFIXES`, lines 47-53). -/
def CONFIG_SUFFIXES : List String :=
  [".config.js", ".config.ts", ".config.mjs", ".config.cjs", ".config.json"]

/-- Default ignore patterns (`DEFAULT_IGNORE_PATTERNS`, lines 55-63). -/
def DEFAULT_IGNORE_PATTERNS : List String :=
  ["__pycache__", ".pyc", "dist", "build", ".obsidian", ".claude", ".vscode"]

/-- `escape_content` (lines 66-70): returns its argument unchanged. -/
def escape_content (content : String) : String :=
  content

/-- `should_ignore` (lines 73-81): a file is ignored when any pattern occurs
as a substring of `str(file_path)`. -/
def should_ignore (file_path : List String) (ignore_patterns : List String) : Bool :=
  ignore_patterns.any (fun pattern => hasSub (strOfPath file_path) pattern)

/-- `is_test_file` (lines 84-91): suffix test on the lowercased name, then a
per-component membership test in `TEST_DIR_NAMES`. -/
def is_test_file (file_path : List String) : Bool :=
  let name_lower := asciiLower (pathName file_path)
  if TEST_FILE_SUFFIXES.any (fun suf => endsWithB name_lower suf) then true
  else file_path.any (fun part => TEST_DIR_NAMES.contains (asciiLower part))

/-- `is_config_file` (lines 94-103): exact-name test, then the
tsconfig-prefix/json-suffix test, then the config-suffix test. -/
def is_config_file (file_path : List String) : Bool :=
  let name_lower := asciiLower (pathName file_path)
  if CONFIG_FILE_NAMES.contains name_lower then true
  else if startsWithB name_lower "tsconfig" && endsWithB name_lower ".json" then true
  else CONFIG_SUFFIXES.any (fun suf => endsWithB name_lower suf)

/-- One filesystem object reachable by `Path.rglob`: its parts and whether it
is a regular file. -/
structure FSEntry where
  parts : List String
  isFile : Bool
deriving DecidableEq

/-- The body of the loop in `collect_files` (lines 124-130): a candidate from
`rglob(f'*{ext}')` (its name ends with `ext`) survives when it is a regular
file, is not ignored, and passes the test-file and config-file gates. -/
def keepCandidate (ignore_patterns : List String)
    (include_tests include_config : Bool) (ext : String) (e : FSEntry) : Bool :=
  e.isFile
    && endsWithB (pathName e.parts) ext
    && !should_ignore e.parts ignore_patterns
    && (include_tests || !is_test_file e.parts)
    && (include_config || !is_config_file e.parts)

/-- `collect_files` (lines 106-132) over a modelled filesystem `fs`: for each
extension, keep the surviving `rglob` candidates in filesystem order, append
the per-extension results, and sort the accumulated list (`sorted(files)`).
`ext` is assumed free of glob metacharacters, so `rglob(f'*{ext}')` matches
exactly the entries whose final component ends with `ext`. -/
def collect_files (fs : List FSEntry) (extensions : List String)
    (ignore_patterns : List String)
    (include_tests include_config : Bool) : List (List String) :=
  sortPaths ((extensions.map (fun ext =>
    (fs.filter (keepCandidate ignore_patterns include_tests include_config ext)).map
      FSEntry.parts)).flatten)

/-- One `<file>` element: the data `create_xml_structure` records per
successfully read file (lines 164-173). -/
structure FileRecord where
  path : String
  extension : String
  size : Nat
  content : String
deriving DecidableEq

/-- The element tree rooted at `<codebase>` built by `create_xml_structure`
(lines 146-180). `totalFiles` is the text of `<total_files>`, fixed from
`len(files)` before any file is read. -/
structure Document where
  project : String
  timestamp : String
  totalFiles : Nat
  rootDir : String
  entries : List FileRecord
deriving DecidableEq

/-- `create_xml_structure` (lines 135-180). `readFile` models
`open(...).read()` with `none` for the exception branch; the returned second
component lists the files whose read failed (the printed error lines).
`timestamp` stands for the `datetime.now().isoformat()` sample. For files
produced by `collect_files` under `root_dir`, `relative_to(root_dir)` cannot
fail and equals dropping the root's parts. -/
def create_xml_structure (files : List (List String))
    (readFile : List String → Option String)
    (root_dir : String) (timestamp : String) :
    Document × List (List String) :=
  let rootParts := parsePath root_dir
  let entries := files.filterMap (fun p =>
    (readFile p).map (fun content =>
      { path := strOfPath (p.drop rootParts.length)
        extension := pathSuffix p
        size := content.length
        content := content : FileRecord }))
  let warnings := files.filter (fun p => (readFile p).isNone)
  ({ project := basename root_dir
     timestamp := timestamp
     totalFiles := files.length
     rootDir := root_dir
     entries := entries }, warnings)

/-- XML line-ending normalization performed by the parser inside
`prettify_xml` (`minidom.parseString`): every "\r\n" pair and every bare
"\r" becomes "\n" (XML 1.0 section 2.11). -/
def normEOLChars : List Char → List Char
  | [] => []
  | '\r' :: '\n' :: rest => '\n' :: normEOLChars rest
  | '\r' :: rest => '\n' :: normEOLChars rest
  | c :: rest => c :: normEOLChars rest

/-- String form of `normEOLChars`. -/
def normEOLStr (s : String) : String :=
  String.mk (normEOLChars s.data)

/-- Character data escaping of `minidom._write_data`, applied by
`toprettyxml` to text nodes and attribute values alike: `&`, `<`, `"` and
`>` become entity references; nothing else (in particular no carriage
return) is escaped. -/
def wdChars : List Char → List Char
  | [] => []
  | '&' :: rest => '&' :: 'a' :: 'm' :: 'p' :: ';' :: wdChars rest
  | '<' :: rest => '&' :: 'l' :: 't' :: ';' :: wdChars rest
  | '"' :: rest => '&' :: 'q' :: 'u' :: 'o' :: 't' :: ';' :: wdChars rest
  | '>' :: rest => '&' :: 'g' :: 't' :: ';' :: wdChars rest
  | c :: rest => c :: wdChars rest

/-- String form of `wdChars`. -/
def writeData (s : String) : String :=
  String.mk (wdChars s.data)

/-- The pretty form of one `<file>` element, as `toprettyxml(indent="  ")`
lays it out at depth two. A `<content>` element holding one text node is
written inline (minidom's single-text-child rule); an empty content string
never reaches the serializer as a text node (`ElementTree` drops empty
text), so it prints as a self-closed tag. The text has already been through
the parse step, hence the line-ending normalization; attribute values pass
through unchanged because `ElementTree.tostring` writes `\r`, `\n` and `\t`
in attributes as character references, which the parse step preserves. -/
def renderFileEntry (r : FileRecord) : String :=
  "    <file path=\"" ++ writeData r.path
    ++ "\" extension=\"" ++ writeData r.extension
    ++ "\" size=\"" ++ writeData (toString r.size) ++ "\">\n"
  ++ (if r.content = "" then "      <content/>\n"
      else "      <content>" ++ writeData (normEOLStr r.content) ++ "</content>\n")
  ++ "    </file>\n"

/-- Everything `prettify_xml` prints before the timestamp attribute value. -/
def renderPre (d : Document) : String :=
  "<?xml version=\"1.0\" encoding=\"utf-8\"?>\n<codebase project=\""
    ++ writeData d.project ++ "\" timestamp=\""

/-- Everything `prettify_xml` prints after the timestamp attribute value. -/
def renderPost (d : Document) : String :=
  "\">\n  <metadata>\n    <total_files>" ++ toString d.totalFiles
  ++ "</total_files>\n    <root_directory>" ++ writeData (normEOLStr d.rootDir)
  ++ "</root_directory>\n  </metadata>\n"
  ++ (if d.entries.isEmpty then "  <files/>\n"
      else "  <files>\n" ++ String.join (d.entries.map renderFileEntry) ++ "  </files>\n")
  ++ "</codebase>\n"

/-- `prettify_xml` (lines 183-189) applied to the tree of
`create_xml_structure`: serialize with `ElementTree.tostring`, parse with
`minidom.parseString` (which performs line-ending normalization and entity
expansion), and print with `toprettyxml(indent="  ")`; the resulting text
for the program's fixed tree shape. Assumes the document's strings contain
only XML-legal characters (on other input `parseString` raises and the run
dies; claim C1's analysis covers that). -/
def prettify_xml (d : Document) : String :=
  renderPre d ++ writeData d.timestamp ++ renderPost d

/-- The command-line configuration after `argparse` (lines 205-256). -/
structure Args where
  directory : String
  output : String
  extensions : List String
  include_node_modules : Bool
  include_git : Bool
  include_tests : Bool
  include_config : Bool
  ignore : List String

/-- The `argparse` defaults (lines 205-254). -/
def defaultArgs : Args :=
  { directory := "."
    output := "codebase.xml"
    extensions := [".ts", ".css", ".json"]
    include_node_modules := false
    include_git := false
    include_tests := false
    include_config := false
    ignore := [] }

/-- The effective ignore-pattern list assembled by `main` (lines 259-265). -/
def effectiveIgnore (a : Args) : List String :=
  ((DEFAULT_IGNORE_PATTERNS
    ++ (if a.include_node_modules then [] else ["node_modules"]))
    ++ (if a.include_git then [] else [".git"]))
    ++ a.ignore

/-- Outcome of one run of `main`: either the early return after the
"no files found" warning (no output written, exit without error), or a
normal completion writing the rendered text to the output path. -/
inductive RunResult where
  | noFiles : RunResult
  | wrote : String → String → RunResult
deriving DecidableEq

/-- `main` (lines 192-302) after argument parsing: build the ignore list,
collect, return early when nothing was found, otherwise build the tree and
write its pretty form to the output path. -/
def main_run (a : Args) (fs : List FSEntry)
    (readFile : List String → Option String) (timestamp : String) : RunResult :=
  let ignore_patterns := effectiveIgnore a
  let files := collect_files fs a.extensions ignore_patterns
    a.include_tests a.include_config
  if files.isEmpty then RunResult.noFiles
  else
    RunResult.wrote a.output
      (prettify_xml (create_xml_structure files readFile a.directory timestamp).1)

/-- Modelled from the spec and claim C4's wording: the test/spec/mock
suffix family is the product of the three markers with the four script
extensions; a path is a test file exactly when its lowercased name ends in
one of these, or some path segment, lowercased, is a fixed test-directory
name. -/
def spec_is_test_file (p : List String) : Bool :=
  let sufs := (([".test", ".spec", ".mock"].map
    (fun base => [".ts", ".tsx", ".js", ".jsx"].map (fun e => base ++ e))).flatten)
  sufs.any (fun suf => endsWithB (asciiLower (pathName p)) suf)
    || p.any (fun seg => ["__tests__", "tests", "__mocks__"].contains (asciiLower seg))

/-- Modelled from the spec and claim C5's wording: a config file is an exact
match against the known config filenames, or a `tsconfig*.json` family file,
or a file with one of the five `.config.*` suffixes. -/
def spec_is_config_file (p : List String) : Bool :=
  let n := asciiLower (pathName p)
  CONFIG_FILE_NAMES.contains n
    || (startsWithB n "tsconfig" && endsWithB n ".json")
    || [".config.js", ".config.ts", ".config.mjs", ".config.cjs", ".config.json"].any
        (fun suf => endsWithB n suf)

theorem length_entries_add_warnings {α β : Type} (l : List α) (r : α → Option String)
    (mk : α → String → β) :
    (l.filterMap (fun a => (r a).map (mk a))).length
      + (l.filter (fun a => (r a).isNone)).length = l.length := by
  induction l with
  | nil => rfl
  | cons a t ih =>
    cases hr : r a <;>
      simp [List.filterMap_cons, hr, List.filter_cons] <;> omega

theorem length_entries_of_all_read {α β : Type} (l : List α) (r : α → Option String)
    (mk : α → String → β) :
    (∀ a ∈ l, (r a).isSome = true) →
      (l.filterMap (fun a => (r a).map (mk a))).length = l.length := by
  induction l with
  | nil => exact fun _ => rfl
  | cons a t ih =>
    intro h
    have ha := h a (List.mem_cons_self a t)
    cases hr : r a
    · rw [hr] at ha; simp at ha
    · have ht := ih (fun x hx => h x (List.mem_cons_of_mem a hx))
      simp [List.filterMap_cons, hr, ht]

theorem map_filterMap_proj {α β γ : Type} (l : List α) (r : α → Option String)
    (mk : α → String → β) (f : β → γ) (h : α → γ)
    (hc : ∀ a c, f (mk a c) = h a) :
    ((l.filterMap (fun a => (r a).map (mk a))).map f)
      = (l.filter (fun a => (r a).isSome)).map h := by
  induction l with
  | nil => rfl
  | cons a t ih =>
    cases hr : r a <;> simp [List.filterMap_cons, hr, List.filter_cons, ih, hc]

theorem map_content_filterMap {α : Type} (l : List α) (r : α → Option String)
    (mk : α → String → FileRecord) (hc : ∀ a c, (mk a c).content = c) :
    ((l.filterMap (fun a => (r a).map (mk a))).map FileRecord.content)
      = l.filterMap r := by
  induction l with
  | nil => rfl
  | cons a t ih => cases hr : r a <;> simp [List.filterMap_cons, hr, ih, hc]

/-- Claim C2 counterexample: with a single input file whose read fails, the
document's `total_files` text is 1 while its file sequence is empty, so the
claimed invariant fails. -/
theorem total_files_mismatch_on_read_failure :
    (create_xml_structure [["a.ts"]] (fun _ => none) "." "T").1.totalFiles = 1
    ∧ (create_xml_structure [["a.ts"]] (fun _ => none) "." "T").1.entries.length = 0
    ∧ ¬ ((create_xml_structure [["a.ts"]] (fun _ => none) "." "T").1.totalFiles
        = (create_xml_structure [["a.ts"]] (fun _ => none) "." "T").1.entries.length) := by
  refine ⟨rfl, rfl, by decide⟩

/-- Claim C2 (amended): `total_files` equals the number of input paths; it
always equals the number of file entries plus the number of files whose
read failed, and it equals the number of file entries exactly in runs where
every input file is read successfully. -/
theorem total_files_counts_inputs (files : List (List String))
    (readFile : List String → Option String) (root_dir timestamp : String) :
    (create_xml_structure files readFile root_dir timestamp).1.totalFiles = files.length
    ∧ (create_xml_structure files readFile root_dir timestamp).1.totalFiles
        = (create_xml_structure files readFile root_dir timestamp).1.entries.length
          + (create_xml_structure files readFile root_dir timestamp).2.length
    ∧ ((∀ p ∈ files, (readFile p).isSome = true) →
        (create_xml_structure files readFile root_dir timestamp).1.totalFiles
          = (create_xml_structure files readFile root_dir timestamp).1.entries.length) := by
  refine ⟨rfl, ?_, ?_⟩
  · exact (length_entries_add_warnings files readFile
      (fun p content =>
        ({ path := strOfPath (p.drop (parsePath root_dir).length),
           extension := pathSuffix p, size := content.length,
           content := content } : FileRecord))).symm
  · intro h
    exact (length_entries_of_all_read files readFile
      (fun p content =>
        ({ path := strOfPath (p.drop (parsePath root_dir).length),
           extension := pathSuffix p, size := content.length,
           content := content } : FileRecord)) h).symm

/-- Witness for the amended claim C2 at a concrete input where the read
succeeds. -/
theorem total_files_counts_inputs_witness :
    (create_xml_structure [["a.ts"]] (fun _ => some "x") "." "T").1.totalFiles
      = (create_xml_structure [["a.ts"]] (fun _ => some "x") "." "T").1.entries.length :=
  (total_files_counts_inputs [["a.ts"]] (fun _ => some "x") "." "T").2.2 (by decide)

/-- Claim C7: a failed read never aborts document assembly (the model is a
total function); the failed files are exactly the warned-about ones, and
the document's file sequence has one entry, carrying its relative path, for
exactly the successfully read files, in order. -/
theorem create_xml_structure_skips_unreadable (files : List (List String))
    (readFile : List String → Option String) (root_dir timestamp : String) :
    (create_xml_structure files readFile root_dir timestamp).2
      = files.filter (fun p => (readFile p).isNone)
    ∧ (create_xml_structure files readFile root_dir timestamp).1.entries.map
          FileRecord.path
      = (files.filter (fun p => (readFile p).isSome)).map
          (fun p => strOfPath (p.drop (parsePath root_dir).length)) := by
  refine ⟨rfl, ?_⟩
  show (files.filterMap _).map _ = _
  exact map_filterMap_proj files readFile
    (fun p content =>
      ({ path := strOfPath (p.drop (parsePath root_dir).length),
         extension := pathSuffix p, size := content.length,
         content := content } : FileRecord))
    FileRecord.path (fun p => strOfPath (p.drop (parsePath root_dir).length))
    (fun _ _ => rfl)

/-- Claim C9: rendering is a pure function of the input files, their
contents and the root directory, and the produced texts for two timestamp
samples agree everywhere outside the timestamp attribute value. -/
theorem render_deterministic_mod_timestamp (files : List (List String))
    (readFile : List String → Option String) (root_dir t₁ t₂ : String) :
    ∃ before after : String,
      prettify_xml (create_xml_structure files readFile root_dir t₁).1
        = before ++ writeData t₁ ++ after
      ∧ prettify_xml (create_xml_structure files readFile root_dir t₂).1
        = before ++ writeData t₂ ++ after :=
  ⟨renderPre (create_xml_structure files readFile root_dir t₁).1,
   renderPost (create_xml_structure files readFile root_dir t₁).1,
   rfl, rfl⟩

/-- Claim C1 fails on the code: a file whose content holds a carriage
return renders to exactly the same document text as the same file with a
line feed instead, because the content is embedded as an ordinary text node
(no CDATA, despite the comment on line 171) and the XML parse inside
`prettify_xml` normalizes line endings. Two distinct contents with one
rendering: no parse of the rendered text can reconstruct both, so exact
byte-for-byte reconstruction is impossible. -/
theorem render_collapses_carriage_return :
    prettify_xml (create_xml_structure [["f.ts"]] (fun _ => some "a\rb") "." "T").1
      = prettify_xml (create_xml_structure [["f.ts"]] (fun _ => some "a\nb") "." "T").1
    ∧ ("a\rb" : String) ≠ "a\nb" := by
  exact ⟨rfl, by decide⟩

/-- Claim C8: whenever the collector comes back empty, `main` returns early
through the warning branch: no document is built, nothing is rendered, and
no output file is written. -/
theorem main_run_empty_collect_no_output (a : Args) (fs : List FSEntry)
    (readFile : List String → Option String) (timestamp : String)
    (h : collect_files fs a.extensions (effectiveIgnore a)
          a.include_tests a.include_config = []) :
    main_run a fs readFile timestamp = RunResult.noFiles := by
  simp [main_run, h]

/-- Witness for claim C8 on an empty filesystem with default arguments. -/
theorem main_run_empty_collect_no_output_witness :
    main_run defaultArgs [] (fun _ => none) "T" = RunResult.noFiles :=
  main_run_empty_collect_no_output defaultArgs [] (fun _ => none) "T" rfl

/-- Claim C10: `escape_content` is the identity and performs no escaping;
document assembly stores every successfully read content verbatim (the
recorded contents are exactly the successful read results), so any escaping
happens only when the element tree is serialized to text. -/
theorem escape_content_identity_and_verbatim :
    (∀ s : String, escape_content s = s)
    ∧ (∀ (files : List (List String)) (readFile : List String → Option String)
        (root_dir timestamp : String),
        (create_xml_structure files readFile root_dir timestamp).1.entries.map
            FileRecord.content
          = files.filterMap readFile) := by
  refine ⟨fun s => rfl, ?_⟩
  intro files readFile root_dir timestamp
  show (files.filterMap _).map _ = _
  exact map_content_filterMap files readFile
    (fun p content =>
      ({ path := strOfPath (p.drop (parsePath root_dir).length),
         extension := pathSuffix p, size := content.length,
         content := content } : FileRecord))
    (fun _ _ => rfl)

theorem any_eq_of_mem_agree {l₁ l₂ : List String}
    (h₁ : ∀ a ∈ l₁, a ∈ l₂) (h₂ : ∀ a ∈ l₂, a ∈ l₁) (f : String → Bool) :
    l₁.any f = l₂.any f := by
  by_cases h : l₁.any f = true
  · rw [h]
    symm
    rw [List.any_eq_true] at h ⊢
    obtain ⟨x, hx, hfx⟩ := h
    exact ⟨x, h₁ x hx, hfx⟩
  · have hh : ¬ l₂.any f = true := by
      intro hc
      rw [List.any_eq_true] at hc
      obtain ⟨x, hx, hfx⟩ := hc
      exact h (List.any_eq_true.mpr ⟨x, h₂ x hx, hfx⟩)
    rw [Bool.not_eq_true] at h hh
    rw [h, hh]

/-- Claim C4: `is_test_file` holds exactly as the specification states it:
the lowercased filename ends with one of the twelve test/spec/mock suffixes
(the product of the three markers with the four script extensions), or some
path segment, lowercased, is one of the fixed test-directory names. -/
theorem is_test_file_iff_spec (p : List String) :
    is_test_file p = spec_is_test_file p := by
  have h₁ : ∀ a ∈ TEST_FILE_SUFFIXES,
      a ∈ (([".test", ".spec", ".mock"].map
        (fun base => [".ts", ".tsx", ".js", ".jsx"].map (fun e => base ++ e))).flatten) := by
    decide
  have h₂ : ∀ a ∈ (([".test", ".spec", ".mock"].map
      (fun base => [".ts", ".tsx", ".js", ".jsx"].map (fun e => base ++ e))).flatten),
      a ∈ TEST_FILE_SUFFIXES := by
    decide
  have hany := any_eq_of_mem_agree h₁ h₂
    (fun suf => endsWithB (asciiLower (pathName p)) suf)
  simp only [is_test_file, spec_is_test_file, ← hany]
  cases hc : TEST_FILE_SUFFIXES.any
      (fun suf => endsWithB (asciiLower (pathName p)) suf) <;>
    simp [hc, TEST_DIR_NAMES]

/-- Claim C5: `is_config_file` holds exactly as the specification states it:
the lowercased filename matches a known config filename exactly, or is a
`tsconfig*.json` family name, or carries one of the five config suffixes. -/
theorem is_config_file_iff_spec (p : List String) :
    is_config_file p = spec_is_config_file p := by
  simp only [is_config_file, spec_is_config_file, CONFIG_SUFFIXES]
  cases h₁ : CONFIG_FILE_NAMES.contains (asciiLower (pathName p)) <;>
    cases h₂ : startsWithB (asciiLower (pathName p)) "tsconfig"
        && endsWithB (asciiLower (pathName p)) ".json" <;>
      simp [h₁, h₂]

theorem char_eq_of_not_lt {a b : Char} (h₁ : ¬ a < b) (h₂ : ¬ b < a) : a = b :=
  le_antisymm (not_lt.mp h₂) (not_lt.mp h₁)

theorem charsLtB_irrefl (l : List Char) : charsLtB l l = false := by
  induction l with
  | nil => rfl
  | cons a as ih => simp [charsLtB, ih]

theorem charsLtB_connex : ∀ (a b : List Char),
    charsLtB a b = false → charsLtB b a = false → a = b := by
  intro a
  induction a with
  | nil =>
    intro b h₁ h₂
    cases b with
    | nil => rfl
    | cons y ys => simp [charsLtB] at h₁
  | cons x xs ih =>
    intro b h₁ h₂
    cases b with
    | nil => simp [charsLtB] at h₂
    | cons y ys =>
      by_cases hxy : x < y
      · simp [charsLtB, hxy] at h₁
      · by_cases hyx : y < x
        · simp [charsLtB, hyx] at h₂
        · have hx : x = y := char_eq_of_not_lt hxy hyx
          subst hx
          simp [charsLtB, hxy] at h₁ h₂
          exact congrArg (List.cons x) (ih ys h₁ h₂)

theorem charsLtB_trans : ∀ (a b c : List Char),
    charsLtB a b = true → charsLtB b c = true → charsLtB a c = true := by
  intro a
  induction a with
  | nil =>
    intro b c h₁ h₂
    cases c with
    | nil =>
      cases b with
      | nil => simp [charsLtB] at h₁
      | cons y ys => simp [charsLtB] at h₂
    | cons z zs => simp [charsLtB]
  | cons x xs ih =>
    intro b c h₁ h₂
    cases b with
    | nil => simp [charsLtB] at h₁
    | cons y ys =>
      cases c with
      | nil => simp [charsLtB] at h₂
      | cons z zs =>
        by_cases hxy : x < y
        · by_cases hyz : y < z
          · simp [charsLtB, lt_trans hxy hyz]
          · by_cases hzy : z < y
            · simp [charsLtB, hyz, hzy] at h₂
            · have hy : y = z := char_eq_of_not_lt hyz hzy
              subst hy
              simp [charsLtB, hxy]
        · by_cases hyx : y < x
          · simp [charsLtB, hxy, hyx] at h₁
          · have hx : x = y := char_eq_of_not_lt hxy hyx
            subst hx
            simp [charsLtB, hxy] at h₁
            by_cases hxz : x < z
            · simp [charsLtB, hxz]
            · by_cases hzx : z < x
              · simp [charsLtB, hxz, hzx] at h₂
              · have hz : x = z := char_eq_of_not_lt hxz hzx
                subst hz
                simp [charsLtB, hxz] at h₂ ⊢
                exact ih ys zs h₁ h₂

theorem strLtB_irrefl (s : String) : strLtB s s = false :=
  charsLtB_irrefl s.data

theorem strLtB_connex {a b : String}
    (h₁ : strLtB a b = false) (h₂ : strLtB b a = false) : a = b :=
  String.ext (charsLtB_connex a.data b.data h₁ h₂)

theorem strLtB_trans {a b c : String}
    (h₁ : strLtB a b = true) (h₂ : strLtB b c = true) : strLtB a c = true :=
  charsLtB_trans a.data b.data c.data h₁ h₂

theorem pathLeB_total : ∀ (p q : List String),
    pathLeB p q = true ∨ pathLeB q p = true := by
  intro p
  induction p with
  | nil => intro q; left; rfl
  | cons x xs ih =>
    intro q
    cases q with
    | nil => right; rfl
    | cons y ys =>
      by_cases h₁ : strLtB x y = true
      · left; simp [pathLeB, h₁]
      · by_cases h₂ : strLtB y x = true
        · right; simp [pathLeB, h₂]
        · rw [Bool.not_eq_true] at h₁ h₂
          have hxy : x = y := strLtB_connex h₁ h₂
          subst hxy
          rcases ih ys with h | h
          · left; simp [pathLeB, strLtB_irrefl]; exact h
          · right; simp [pathLeB, strLtB_irrefl]; exact h

theorem pathLeB_trans : ∀ (p q r : List String),
    pathLeB p q = true → pathLeB q r = true → pathLeB p r = true := by
  intro p
  induction p with
  | nil => intro q r h₁ h₂; rfl
  | cons x xs ih =>
    intro q r h₁ h₂
    cases q with
    | nil => simp [pathLeB] at h₁
    | cons y ys =>
      cases r with
      | nil => simp [pathLeB] at h₂
      | cons z zs =>
        by_cases hxy : strLtB x y = true
        · by_cases hyz : strLtB y z = true
          · simp [pathLeB, strLtB_trans hxy hyz]
          · by_cases hzy : strLtB z y = true
            · simp [pathLeB, hyz, hzy] at h₂
            · rw [Bool.not_eq_true] at hyz hzy
              have hy : y = z := strLtB_connex hyz hzy
              subst hy
              simp [pathLeB, hxy]
        · by_cases hyx : strLtB y x = true
          · simp [pathLeB, hxy, hyx] at h₁
          · rw [Bool.not_eq_true] at hxy hyx
            have hx : x = y := strLtB_connex hxy hyx
            subst hx
            simp [pathLeB, strLtB_irrefl] at h₁
            by_cases hxz : strLtB x z = true
            · simp [pathLeB, hxz]
            · by_cases hzx : strLtB z x = true
              · simp [pathLeB, hxz, hzx] at h₂
              · rw [Bool.not_eq_true] at hxz hzx
                have hz : x = z := strLtB_connex hxz hzx
                subst hz
                simp [pathLeB, strLtB_irrefl] at h₂ ⊢
                exact ih ys zs h₁ h₂

theorem insertPath_perm (x : List String) (l : List (List String)) :
    List.Perm (insertPath x l) (x :: l) := by
  induction l with
  | nil => exact List.Perm.refl [x]
  | cons y ys ih =>
    by_cases h : pathLeB x y = true
    · simp only [insertPath, if_pos h]
      exact List.Perm.refl _
    · simp only [insertPath, if_neg h]
      exact (ih.cons y).trans (List.Perm.swap x y ys)

theorem sortPaths_perm (l : List (List String)) : List.Perm (sortPaths l) l := by
  induction l with
  | nil => exact List.Perm.refl []
  | cons x xs ih =>
    simp only [sortPaths]
    exact (insertPath_perm x (sortPaths xs)).trans (ih.cons x)

theorem mem_sortPaths {a : List String} {l : List (List String)} :
    a ∈ sortPaths l ↔ a ∈ l :=
  (sortPaths_perm l).mem_iff

theorem pairwise_insertPath (x : List String) (l : List (List String))
    (h : List.Pairwise (fun a b => pathLeB a b = true) l) :
    List.Pairwise (fun a b => pathLeB a b = true) (insertPath x l) := by
  induction l with
  | nil => exact List.pairwise_singleton _ x
  | cons y ys ih =>
    rw [List.pairwise_cons] at h
    obtain ⟨hy, hys⟩ := h
    by_cases hxy : pathLeB x y = true
    · simp only [insertPath, if_pos hxy]
      rw [List.pairwise_cons]
      refine ⟨?_, ?_⟩
      · intro b hb
        rcases List.mem_cons.mp hb with rfl | hb
        · exact hxy
        · exact pathLeB_trans x y b hxy (hy b hb)
      · rw [List.pairwise_cons]
        exact ⟨hy, hys⟩
    · simp only [insertPath, if_neg hxy]
      rw [List.pairwise_cons]
      refine ⟨?_, ih hys⟩
      intro b hb
      rcases List.mem_cons.mp ((insertPath_perm x ys).mem_iff.mp hb) with hbx | hb
      · rw [hbx]
        rcases pathLeB_total x y with h | h
        · exact absurd h hxy
        · exact h
      · exact hy b hb

theorem sortPaths_pairwise (l : List (List String)) :
    List.Pairwise (fun a b => pathLeB a b = true) (sortPaths l) := by
  induction l with
  | nil => exact List.Pairwise.nil
  | cons x xs ih => exact pairwise_insertPath x (sortPaths xs) ih

theorem suffix_comparable {α : Type} {l₁ l₂ l₃ : List α}
    (h₁ : l₁ <:+ l₃) (h₂ : l₂ <:+ l₃) : l₁ <:+ l₂ ∨ l₂ <:+ l₁ := by
  obtain ⟨a, ha⟩ := h₁
  obtain ⟨b, hb⟩ := h₂
  have e₁ : l₃.drop a.length = l₁ := by rw [← ha]; exact List.drop_left a l₁
  have e₂ : l₃.drop b.length = l₂ := by rw [← hb]; exact List.drop_left b l₂
  rcases Nat.le_total a.length b.length with h | h
  · right
    rw [← e₁, ← e₂]
    have hd : l₃.drop b.length = (l₃.drop a.length).drop (b.length - a.length) := by
      rw [List.drop_drop]
      congr 1
      omega
    rw [hd]
    exact List.drop_suffix _ _
  · left
    rw [← e₁, ← e₂]
    have hd : l₃.drop a.length = (l₃.drop b.length).drop (a.length - b.length) := by
      rw [List.drop_drop]
      congr 1
      omega
    rw [hd]
    exact List.drop_suffix _ _

theorem endsWithB_iff {s t : String} : endsWithB s t = true ↔ t.data <:+ s.data := by
  unfold endsWithB
  exact List.isSuffixOf_iff_suffix

/-- Claim C3 counterexample: `collect_files` deduplicates nothing, so a
repeated requested extension yields the same path twice; and the sort is by
path components (how Python compares `Path` values), which differs from
ascending order on the path string: the returned order `a/f.ts`, `a.d/f.ts`
has strings in descending order, since '.' sorts before '/'. -/
theorem collect_files_duplicate_and_unsorted_strings :
    (¬ (collect_files [⟨["a.ts"], true⟩] [".ts", ".ts"] [] false false).Nodup)
    ∧ collect_files [⟨["a", "f.ts"], true⟩, ⟨["a.d", "f.ts"], true⟩]
        [".ts"] [] false false
      = [["a", "f.ts"], ["a.d", "f.ts"]]
    ∧ strLtB (strOfPath ["a.d", "f.ts"]) (strOfPath ["a", "f.ts"]) = true := by
  refine ⟨by decide, by decide, by decide⟩

/-- Claim C3 (amended): `collect_files` always returns paths sorted
ascending by their component sequences (the order Python's `sorted` uses on
`Path` values); the result is free of duplicates whenever the filesystem
has no duplicate paths and no requested extension is a suffix of another
(in particular no extension repeats) — with overlapping extension patterns
a path matching several patterns appears once per match. -/
theorem collect_files_sorted_nodup (fs : List FSEntry)
    (extensions ignore_patterns : List String)
    (include_tests include_config : Bool) :
    List.Pairwise (fun a b => pathLeB a b = true)
      (collect_files fs extensions ignore_patterns include_tests include_config)
    ∧ ((fs.map FSEntry.parts).Nodup →
        List.Pairwise
          (fun e₁ e₂ => endsWithB e₁ e₂ = false ∧ endsWithB e₂ e₁ = false)
          extensions →
        (collect_files fs extensions ignore_patterns
          include_tests include_config).Nodup) := by
  constructor
  · exact sortPaths_pairwise _
  · intro hfs hexts
    unfold collect_files
    rw [(sortPaths_perm _).nodup_iff]
    rw [List.nodup_flatten]
    constructor
    · intro l hl
      rw [List.mem_map] at hl
      obtain ⟨ext, hext, hleq⟩ := hl
      rw [← hleq]
      exact List.Nodup.sublist
        (List.Sublist.map FSEntry.parts (List.filter_sublist fs)) hfs
    · rw [List.pairwise_map]
      refine hexts.imp ?_
      intro e₁ e₂ he a ha₁ ha₂
      rw [List.mem_map] at ha₁ ha₂
      obtain ⟨x₁, hx₁, hpeq₁⟩ := ha₁
      obtain ⟨x₂, hx₂, hpeq₂⟩ := ha₂
      rw [List.mem_filter] at hx₁ hx₂
      have k₁ := hx₁.2
      have k₂ := hx₂.2
      simp only [keepCandidate, Bool.and_eq_true] at k₁ k₂
      have hend₁ : endsWithB (pathName x₁.parts) e₁ = true := k₁.1.1.1.2
      have hend₂ : endsWithB (pathName x₂.parts) e₂ = true := k₂.1.1.1.2
      have hpp : pathName x₂.parts = pathName x₁.parts := by rw [hpeq₁, hpeq₂]
      rw [hpp] at hend₂
      rcases suffix_comparable (endsWithB_iff.mp hend₁) (endsWithB_iff.mp hend₂)
          with h | h
      · have hc := endsWithB_iff.mpr h
        rw [he.2] at hc
        exact Bool.false_ne_true hc
      · have hc := endsWithB_iff.mpr h
        rw [he.1] at hc
        exact Bool.false_ne_true hc

/-- Witness for the amended claim C3 at a concrete two-file filesystem. -/
theorem collect_files_sorted_nodup_witness :
    (collect_files [⟨["b.ts"], true⟩, ⟨["a.ts"], true⟩]
      [".ts"] [] false false).Nodup :=
  (collect_files_sorted_nodup [⟨["b.ts"], true⟩, ⟨["a.ts"], true⟩]
    [".ts"] [] false false).2 (by decide) (by decide)

/-- Claim C6: with `include_tests = false` the collector never returns a
path classified as a test file, and with `include_tests = true` it can (the
single-file filesystem `a.test.ts` is such an input). -/
theorem collect_files_include_tests_gate :
    (∀ (fs : List FSEntry) (extensions ignore_patterns : List String)
        (include_config : Bool) (p : List String),
        p ∈ collect_files fs extensions ignore_patterns false include_config →
        is_test_file p = false)
    ∧ (∃ (fs : List FSEntry) (extensions ignore_patterns : List String)
        (include_config : Bool) (p : List String),
        p ∈ collect_files fs extensions ignore_patterns true include_config
        ∧ is_test_file p = true) := by
  constructor
  · intro fs exts ign ic p hp
    unfold collect_files at hp
    rw [mem_sortPaths, List.mem_flatten] at hp
    obtain ⟨l, hl, hpl⟩ := hp
    rw [List.mem_map] at hl
    obtain ⟨ext, hext, hleq⟩ := hl
    rw [← hleq, List.mem_map] at hpl
    obtain ⟨e, he, hpe⟩ := hpl
    rw [List.mem_filter] at he
    have hk := he.2
    simp only [keepCandidate, Bool.and_eq_true, Bool.or_eq_true,
      Bool.not_eq_true'] at hk
    rw [← hpe]
    rcases hk.1.2 with h | h
    · exact absurd h (by simp)
    · exact h
  · exact ⟨[⟨["a.test.ts"], true⟩], [".ts"], [], false, ["a.test.ts"],
      by decide, by decide⟩

/-- Witness for the universal half of claim C6 at a concrete input. -/
theorem collect_files_include_tests_gate_witness :
    is_test_file ["a.ts"] = false :=
  collect_files_include_tests_gate.1 [⟨["a.ts"], true⟩] [".ts"] [] false
    ["a.ts"] (by decide)

end PackCode
